import Mathlib

/-!
Verification of the reports_reportlab_v2 repository against its
natural-language specification.

The Python sources are shallowly embedded: pure helper functions become
Lean functions, filesystem / image-decoding effects become explicit
environment records, ReportLab's process-wide font registry becomes an
explicit state threaded through a fold, and in-place style mutation
becomes an explicit heap of style cells.  Python floats are modelled as
exact rationals, Python ints as `Int`.
-/

namespace Reports

/-! ## Flowables (reportlab.platypus elements, kept opaque)

A flowable is an opaque renderable element; the repository only
constructs them and arranges them in a list, so we record exactly the
data the repository puts in: paragraph text with its style name, spacer
dimensions, image path with computed display dimensions.  The one
grouping wrapper the repository builds (`KeepTogether`) always wraps a
flat list of such elements, so groups hold a list of atoms. -/

inductive Atom where
  | paragraph (text : String) (styleName : String)
  | spacer (width height : ℚ)
  | image (path : String) (width height : ℚ)
  deriving DecidableEq, Repr

inductive Flowable where
  | atom (a : Atom)
  | keepTogether (children : List Atom)
  deriving DecidableEq, Repr

/-! ## Image environment

`scaled_image_flowable` (src/scale_image.py) interacts with the world by
`img_path.exists()` and `ImageReader(...).getSize()`.  We model both as
an explicit record: `decode p = some (iw, ih)` when `ImageReader`
succeeds and returns those dimensions, `none` when it raises. -/

structure ImgWorld where
  fileExists : String → Bool
  decode : String → Option (Int × Int)

/-- Embedding of `scaled_image_flowable` (src/scale_image.py, lines 10-75).
Returns `none` exactly where the Python function returns `None`. -/
def scaled_image_flowable (w : ImgWorld) (img_path : String)
    (max_height : ℚ) (upscale : Bool := false) : Option Atom :=
  if max_height ≤ 0 then
    none
  else if ¬ w.fileExists img_path then
    none
  else
    match w.decode img_path with
    | none => none
    | some (iw, ih) =>
      if iw ≤ 0 ∨ ih ≤ 0 then
        none
      else
        some (.image img_path
          ((iw : ℚ) * (if ¬ upscale ∧ (ih : ℚ) < max_height then 1 else max_height / (ih : ℚ)))
          ((ih : ℚ) * (if ¬ upscale ∧ (ih : ℚ) < max_height then 1 else max_height / (ih : ℚ))))

/-- The disjunction of failure conditions of `scaled_image_flowable`, as the
spec enumerates them, as a boolean. -/
def scaleFailCond (w : ImgWorld) (img_path : String) (max_height : ℚ) : Bool :=
  max_height ≤ 0 || !w.fileExists img_path ||
    (match w.decode img_path with
     | none => true
     | some (iw, ih) => iw ≤ 0 || ih ≤ 0)

/-- Characterization of a successful run of `scaled_image_flowable`: with a
positive max height, an existing file decoding to positive dimensions, the
result is an image flowable with the scaled dimensions. -/
theorem scaled_image_flowable_pos (w : ImgWorld) (p : String) (m : ℚ)
    (u : Bool) (iw ih : Int)
    (hm : 0 < m) (hex : w.fileExists p = true) (hdec : w.decode p = some (iw, ih))
    (hw : 0 < iw) (hh : 0 < ih) :
    scaled_image_flowable w p m u =
      some (.image p ((iw : ℚ) * (if ¬ u ∧ (ih : ℚ) < m then 1 else m / (ih : ℚ)))
                     ((ih : ℚ) * (if ¬ u ∧ (ih : ℚ) < m then 1 else m / (ih : ℚ)))) := by
  have h1 : ¬ m ≤ 0 := not_le.mpr hm
  have h2 : ¬ (iw ≤ 0 ∨ ih ≤ 0) := by push_neg; exact ⟨hw, hh⟩
  simp [scaled_image_flowable, hdec, hex, h1, h2]

/-- A failing run of `scaled_image_flowable` returns `none`. -/
theorem scaled_image_flowable_fail (w : ImgWorld) (p : String) (m : ℚ) (u : Bool)
    (hfail : scaleFailCond w p m = true) :
    scaled_image_flowable w p m u = none := by
  by_cases hm : m ≤ 0
  · simp [scaled_image_flowable, hm]
  · by_cases hex : w.fileExists p = true
    · cases hdec : w.decode p with
      | none => simp [scaled_image_flowable, hm, hex, hdec]
      | some pr =>
        obtain ⟨iw, ih⟩ := pr
        have hdim : iw ≤ 0 ∨ ih ≤ 0 := by
          unfold scaleFailCond at hfail
          rw [hdec] at hfail
          simp only [Bool.or_eq_true, decide_eq_true_eq, Bool.not_eq_true'] at hfail
          rcases hfail with (h | h) | h
          · exact absurd h hm
          · rw [h] at hex; exact absurd hex (by simp)
          · exact h
        simp [scaled_image_flowable, hm, hex, hdec, hdim]
    · have hex' : w.fileExists p = false := by
        cases h : w.fileExists p
        · rfl
        · exact absurd h hex
      simp [scaled_image_flowable, hm, hex']

/-- Eliminating a false failure condition: all the success preconditions hold. -/
theorem scaleFailCond_false_elim (w : ImgWorld) (p : String) (m : ℚ)
    (h : scaleFailCond w p m = false) :
    0 < m ∧ w.fileExists p = true ∧
      ∃ iw ih, w.decode p = some (iw, ih) ∧ 0 < iw ∧ 0 < ih := by
  unfold scaleFailCond at h
  cases hdec : w.decode p with
  | none => rw [hdec] at h; simp at h
  | some pr =>
    obtain ⟨iw, ih⟩ := pr
    rw [hdec] at h
    simp only [Bool.or_eq_false_iff, decide_eq_false_iff_not, Bool.not_eq_false] at h
    obtain ⟨⟨h1, h2⟩, h3⟩ := h
    push_neg at h1 h3
    exact ⟨h1, by simpa using h2, iw, ih, rfl, h3.1, h3.2⟩

/-- A concrete image world: every path exists and decodes to a 10×20 image. -/
def imgWorld1020 : ImgWorld := ⟨fun _ => true, fun _ => some (10, 20)⟩

/-- A concrete image world with no files. -/
def imgWorldEmpty : ImgWorld := ⟨fun _ => false, fun _ => none⟩

/-- C1: for an image decoding to width `iw > 0`, height `ih > 0`, and max
height `m > 0`, `scaled_image_flowable` keeps the natural size when
`ih < m` and upscaling is off, otherwise returns dimensions
`(iw * m / ih, m)`; in every case the output width/height ratio equals
the natural ratio `iw / ih` exactly. -/
theorem scaled_image_dims_spec (w : ImgWorld) (p : String) (m : ℚ)
    (u : Bool) (iw ih : Int)
    (hm : 0 < m) (hex : w.fileExists p = true) (hdec : w.decode p = some (iw, ih))
    (hw : 0 < iw) (hh : 0 < ih) :
    (u = false → (ih : ℚ) < m →
        scaled_image_flowable w p m u = some (.image p (iw : ℚ) (ih : ℚ))) ∧
    ((u = true ∨ m ≤ (ih : ℚ)) →
        scaled_image_flowable w p m u = some (.image p ((iw : ℚ) * m / (ih : ℚ)) m)) ∧
    (∀ wd ht, scaled_image_flowable w p m u = some (.image p wd ht) →
        wd / ht = (iw : ℚ) / (ih : ℚ)) := by
  have hbase := scaled_image_flowable_pos w p m u iw ih hm hex hdec hw hh
  have hih0 : (ih : ℚ) ≠ 0 := by exact_mod_cast hh.ne'
  have hnat : u = false → (ih : ℚ) < m →
      scaled_image_flowable w p m u = some (.image p (iw : ℚ) (ih : ℚ)) := by
    intro hu hlt
    rw [hbase, if_pos ⟨by simp [hu], hlt⟩, mul_one, mul_one]
  have hscaled : (u = true ∨ m ≤ (ih : ℚ)) →
      scaled_image_flowable w p m u = some (.image p ((iw : ℚ) * m / (ih : ℚ)) m) := by
    intro hcase
    have hcond : ¬ (¬ u = true ∧ (ih : ℚ) < m) := by
      rcases hcase with h | h
      · exact fun hc => hc.1 h
      · exact fun hc => absurd h (not_le.mpr hc.2)
    rw [hbase, if_neg hcond]
    have hh2 : (ih : ℚ) * (m / (ih : ℚ)) = m := by
      field_simp
    have hw2 : (iw : ℚ) * (m / (ih : ℚ)) = (iw : ℚ) * m / (ih : ℚ) := by
      ring
    rw [hh2, hw2]
  refine ⟨hnat, hscaled, ?_⟩
  intro wd ht heq
  by_cases hc : ¬ u = true ∧ (ih : ℚ) < m
  · rw [hbase, if_pos hc, mul_one, mul_one] at heq
    cases heq
    rfl
  · have hcase : u = true ∨ m ≤ (ih : ℚ) := by
      rcases not_and_or.mp hc with h' | h'
      · exact Or.inl (not_not.mp h')
      · exact Or.inr (not_lt.mp h')
    rw [hscaled hcase] at heq
    cases heq
    have hm0 : m ≠ 0 := ne_of_gt hm
    field_simp
    ring

/-- Witness for C1: a 10×20 image with max height 10 and no upscaling is
scaled to 5×10, and the ratio is preserved. -/
theorem scaled_image_dims_spec_witness :
    scaled_image_flowable imgWorld1020 "img.png" 10 false =
      some (.image "img.png" 5 10) := by
  have h := (scaled_image_dims_spec imgWorld1020 "img.png" 10 false 10 20
    (by norm_num) rfl rfl (by norm_num) (by norm_num)).2.1 (Or.inr (by norm_num))
  rw [h]
  norm_num

/-- C5: `scaled_image_flowable` returns `none` exactly when max height ≤ 0,
the file is missing, decoding fails, or a decoded dimension is ≤ 0; in every
other case it returns an image element. -/
theorem scaled_image_none_iff (w : ImgWorld) (p : String) (m : ℚ) (u : Bool) :
    (scaled_image_flowable w p m u = none ↔ scaleFailCond w p m = true) ∧
    (scaleFailCond w p m = false →
      ∃ wd ht, scaled_image_flowable w p m u = some (.image p wd ht)) := by
  have hsome : scaleFailCond w p m = false →
      ∃ wd ht, scaled_image_flowable w p m u = some (.image p wd ht) := by
    intro hfc
    obtain ⟨hm, hex, iw, ih, hdec, hw, hh⟩ := scaleFailCond_false_elim w p m hfc
    exact ⟨_, _, scaled_image_flowable_pos w p m u iw ih hm hex hdec hw hh⟩
  refine ⟨⟨?_, fun h => scaled_image_flowable_fail w p m u h⟩, hsome⟩
  intro hnone
  cases hfc : scaleFailCond w p m with
  | true => rfl
  | false =>
    obtain ⟨wd, ht, hsome'⟩ := hsome hfc
    rw [hsome'] at hnone
    exact absurd hnone (by simp)

/-- Witness for C5: a missing file yields `none`, and with both conditions of
the equivalence evaluated on a concrete world with a decodable image the
success side produces an image. -/
theorem scaled_image_none_iff_witness :
    scaled_image_flowable imgWorldEmpty "img.png" 10 false = none ∧
    ∃ wd ht, scaled_image_flowable imgWorld1020 "img.png" 10 false =
      some (.image "img.png" wd ht) := by
  constructor
  · exact (scaled_image_none_iff imgWorldEmpty "img.png" 10 false).1.mpr (by decide)
  · exact (scaled_image_none_iff imgWorld1020 "img.png" 10 false).2 (by decide)

/-! ## Story assembly (src/build_story.py)

`build_story` takes keyword arguments; we bundle them, with the same
defaults as the Python signature.  The stylesheet is consulted only for
the presence of the "Title" and "BodyText" names, so it is embedded as
the list of style names.  A raised `KeyError` becomes `Except.error`. -/

structure BuildArgs where
  title : String
  body : String
  image_path : Option String := none
  image_max_height_px : Option ℚ := none
  after_title : Option ℚ := none
  after_body : Option ℚ := none
  prepend : List Flowable := []
  append : List Flowable := []
  keep_image_with_body : Bool := true

/-- Embedding of `_get_style` (src/build_story.py, lines 14-19): a lookup
that raises a `KeyError` with a precise message when the name is absent. -/
def _get_style (styles : List String) (name : String) : Except String String :=
  if name ∈ styles then .ok name
  else .error ("Required style '" ++ name ++ "' not found in stylesheet.")

/-- Python truthiness of `x or default` on an optional float: `None` and
`0` are falsy, so both select the default. -/
def pyOrDefault (x : Option ℚ) (default : ℚ) : ℚ :=
  match x with
  | none => default
  | some v => if v = 0 then default else v

/-- `(spacing or {}).get(key, default)`: an absent mapping and an absent
key both give the default. -/
def spacingGet (entry : Option ℚ) (default : ℚ) : ℚ :=
  entry.getD default

/-- The `img_block` list `build_story` computes: the scaled image
flowable, when an image path was given and scaling succeeded, else
empty (the skipped-image warning path). -/
def imgBlock (w : ImgWorld) (a : BuildArgs) : List Atom :=
  match a.image_path with
  | none => []
  | some p =>
    match scaled_image_flowable w p (pyOrDefault a.image_max_height_px 100) with
    | some img => [img]
    | none => []

/-- Embedding of `build_story` (src/build_story.py, lines 22-98). -/
def build_story (w : ImgWorld) (styles : List String) (a : BuildArgs) :
    Except String (List Flowable) := do
  let sp_after_title := spacingGet a.after_title 12
  let sp_after_body := spacingGet a.after_body 24
  let title_style ← _get_style styles "Title"
  let body_style ← _get_style styles "BodyText"
  let story1 : List Flowable := a.prepend ++
    [.atom (.paragraph a.title title_style), .atom (.spacer 1 sp_after_title)]
  let body_flowable : List Atom :=
    [.paragraph a.body body_style, .spacer 1 sp_after_body]
  let img_block : List Atom := imgBlock w a
  let story2 : List Flowable :=
    if a.keep_image_with_body ∧ img_block ≠ [] then
      story1 ++ [.keepTogether (body_flowable ++ img_block)]
    else
      story1 ++ body_flowable.map .atom ++ img_block.map .atom
  pure (story2 ++ a.append)

/-- Unfolding `build_story` on a stylesheet containing both required
styles. -/
theorem build_story_ok (w : ImgWorld) (styles : List String) (a : BuildArgs)
    (hT : "Title" ∈ styles) (hB : "BodyText" ∈ styles) :
    build_story w styles a = .ok (
      let story1 := a.prepend ++
        [.atom (.paragraph a.title "Title"),
         .atom (.spacer 1 (spacingGet a.after_title 12))]
      let body_flowable : List Atom :=
        [.paragraph a.body "BodyText", .spacer 1 (spacingGet a.after_body 24)]
      (if a.keep_image_with_body ∧ imgBlock w a ≠ [] then
        story1 ++ [.keepTogether (body_flowable ++ imgBlock w a)]
      else
        story1 ++ body_flowable.map .atom ++ (imgBlock w a).map .atom) ++ a.append) := by
  unfold build_story _get_style
  rw [if_pos hT, if_pos hB]
  rfl

/-- The build arguments `title="T"`, `body="B"`, everything else at the
Python defaults. -/
def defaultArgsTB : BuildArgs := ⟨"T", "B", none, none, none, none, [], [], true⟩

/-- C3: with a title, a body, no image, default spacing and no extra
elements, the story is exactly
`[title paragraph, spacer 12, body paragraph, spacer 24]`. -/
theorem build_story_no_image_default (w : ImgWorld) (styles : List String)
    (t b : String) (hT : "Title" ∈ styles) (hB : "BodyText" ∈ styles) :
    build_story w styles ⟨t, b, none, none, none, none, [], [], true⟩ =
      .ok [.atom (.paragraph t "Title"), .atom (.spacer 1 12),
           .atom (.paragraph b "BodyText"), .atom (.spacer 1 24)] := by
  rw [build_story_ok w styles _ hT hB]
  rfl

/-- Witness for C3: the story for `title="T"`, `body="B"` on a concrete
stylesheet. -/
theorem build_story_no_image_default_witness :
    build_story imgWorldEmpty ["Title", "BodyText"] ⟨"T", "B", none, none,
        none, none, [], [], true⟩ =
      .ok [.atom (.paragraph "T" "Title"), .atom (.spacer 1 12),
           .atom (.paragraph "B" "BodyText"), .atom (.spacer 1 24)] :=
  build_story_no_image_default imgWorldEmpty ["Title", "BodyText"] "T" "B"
    (by decide) (by decide)

/-- Counterexample to C2 as stated: with the grouping flag set but no
image produced, `build_story` does **not** emit a grouped block; body and
spacer are appended ungrouped. -/
theorem build_story_grouping_counterexample :
    build_story imgWorldEmpty ["Title", "BodyText"] defaultArgsTB =
      .ok [.atom (.paragraph "T" "Title"), .atom (.spacer 1 12),
           .atom (.paragraph "B" "BodyText"), .atom (.spacer 1 24)] ∧
    ([.atom (.paragraph "T" "Title"), .atom (.spacer 1 12),
      .atom (.paragraph "B" "BodyText"), .atom (.spacer 1 24)] : List Flowable) ≠
      [.atom (.paragraph "T" "Title"), .atom (.spacer 1 12),
       .keepTogether [.paragraph "B" "BodyText", .spacer 1 24]] := by
  constructor
  · rw [build_story_ok imgWorldEmpty ["Title", "BodyText"] defaultArgsTB
      (by decide) (by decide)]
    rfl
  · decide

/-- C2 (amended): with the grouping flag set, when an image element is
produced the body, the body spacer and the image form a single grouped
block between [prepend; title; spacer] and the appended elements; when no
image element is produced, body and spacer are appended ungrouped. -/
theorem build_story_grouping (w : ImgWorld) (styles : List String)
    (a : BuildArgs) (hT : "Title" ∈ styles) (hB : "BodyText" ∈ styles)
    (hk : a.keep_image_with_body = true) :
    (∀ img, imgBlock w a = [img] →
      build_story w styles a = .ok (a.prepend ++
        [.atom (.paragraph a.title "Title"),
         .atom (.spacer 1 (spacingGet a.after_title 12)),
         .keepTogether [.paragraph a.body "BodyText",
           .spacer 1 (spacingGet a.after_body 24), img]] ++ a.append)) ∧
    (imgBlock w a = [] →
      build_story w styles a = .ok (a.prepend ++
        [.atom (.paragraph a.title "Title"),
         .atom (.spacer 1 (spacingGet a.after_title 12)),
         .atom (.paragraph a.body "BodyText"),
         .atom (.spacer 1 (spacingGet a.after_body 24))] ++ a.append)) := by
  rw [build_story_ok w styles a hT hB]
  constructor
  · intro img himg
    rw [himg]
    simp [hk, List.append_assoc]
  · intro himg
    rw [himg]
    simp [List.append_assoc]

/-- Witness for C2 (amended): a concrete grouped story (image produced)
and a concrete ungrouped story (no image). -/
theorem build_story_grouping_witness :
    build_story imgWorld1020 ["Title", "BodyText"]
        ⟨"T", "B", some "img.png", some 10, none, none, [], [], true⟩ =
      .ok [.atom (.paragraph "T" "Title"), .atom (.spacer 1 12),
           .keepTogether [.paragraph "B" "BodyText", .spacer 1 24,
             .image "img.png" 5 10]] ∧
    build_story imgWorldEmpty ["Title", "BodyText"] defaultArgsTB =
      .ok [.atom (.paragraph "T" "Title"), .atom (.spacer 1 12),
           .atom (.paragraph "B" "BodyText"), .atom (.spacer 1 24)] := by
  constructor
  · have hpy : pyOrDefault (some 10) 100 = 10 := by norm_num [pyOrDefault]
    have hsc : scaled_image_flowable imgWorld1020 "img.png"
        (pyOrDefault (some 10) 100) = some (.image "img.png" 5 10) := by
      rw [hpy]
      have h := scaled_image_flowable_pos imgWorld1020 "img.png" 10 false 10 20
        (by norm_num) rfl rfl (by norm_num) (by norm_num)
      rw [h]
      norm_num
    have himg : imgBlock imgWorld1020
        ⟨"T", "B", some "img.png", some 10, none, none, [], [], true⟩ =
        [.image "img.png" 5 10] := by
      unfold imgBlock
      dsimp only
      rw [hsc]
    have h := (build_story_grouping imgWorld1020 ["Title", "BodyText"]
      ⟨"T", "B", some "img.png", some 10, none, none, [], [], true⟩
      (by decide) (by decide) rfl).1 (.image "img.png" 5 10) himg
    rw [h]
    rfl
  · have h := (build_story_grouping imgWorldEmpty ["Title", "BodyText"]
      defaultArgsTB (by decide) (by decide) rfl).2 (by decide)
    rw [h]
    rfl

/-- `a` with its `image_max_height_px` field replaced. -/
def withMaxHeight (a : BuildArgs) (m : Option ℚ) : BuildArgs :=
  ⟨a.title, a.body, a.image_path, m, a.after_title, a.after_body,
   a.prepend, a.append, a.keep_image_with_body⟩

/-- C10: when `image_max_height_px` is `None` or `0` (both falsy in
Python), `build_story` invokes the scaler with the substituted default
of 100 points: the story is the same as with an explicit 100, and a
decodable image is not dropped by the scaler's max-height-≤-0 path but
capped at 100 points of height. -/
theorem build_story_default_max_height (w : ImgWorld) (styles : List String)
    (a : BuildArgs) (p : String) (hp : a.image_path = some p)
    (h0 : a.image_max_height_px = none ∨ a.image_max_height_px = some 0) :
    build_story w styles a = build_story w styles (withMaxHeight a (some 100)) ∧
    (w.fileExists p = true → ∀ iw ih : Int, w.decode p = some (iw, ih) →
      0 < iw → 0 < ih →
      ∃ wd, imgBlock w a = [.image p wd (if (ih : ℚ) < 100 then (ih : ℚ) else 100)]) := by
  have hm : pyOrDefault a.image_max_height_px 100 = 100 := by
    rcases h0 with h | h <;> simp [pyOrDefault, h]
  have himg : imgBlock w (withMaxHeight a (some 100)) = imgBlock w a := by
    unfold imgBlock withMaxHeight
    rw [hm]
    rfl
  constructor
  · unfold build_story
    rw [himg]
    rfl
  · intro hex iw ih hdec hw hh
    have hpos := scaled_image_flowable_pos w p 100 false iw ih (by norm_num) hex hdec hw hh
    have hih0 : (ih : ℚ) ≠ 0 := by exact_mod_cast hh.ne'
    unfold imgBlock
    rw [hp]
    dsimp only
    rw [hm, hpos]
    dsimp only
    by_cases hlt : (ih : ℚ) < 100
    · refine ⟨(iw : ℚ) * 1, ?_⟩
      rw [if_pos ⟨by simp, hlt⟩, if_pos hlt, mul_one, mul_one]
    · refine ⟨(iw : ℚ) * (100 / (ih : ℚ)), ?_⟩
      rw [if_neg (fun hc => hlt hc.2), if_neg hlt]
      have hcap : (ih : ℚ) * (100 / (ih : ℚ)) = 100 := by field_simp
      rw [hcap]

/-- Witness for C10: on a 10×20 image with `image_max_height_px = 0`, the
story is the one built with 100, and the image block holds the image at
its natural 20-point height (20 < 100, no upscaling). -/
theorem build_story_default_max_height_witness :
    build_story imgWorld1020 ["Title", "BodyText"]
        ⟨"T", "B", some "img.png", some 0, none, none, [], [], true⟩ =
      build_story imgWorld1020 ["Title", "BodyText"]
        (withMaxHeight ⟨"T", "B", some "img.png", some 0, none, none, [], [], true⟩
          (some 100)) ∧
    ∃ wd, imgBlock imgWorld1020
        ⟨"T", "B", some "img.png", some 0, none, none, [], [], true⟩ =
      [.image "img.png" wd (if (20 : ℚ) < 100 then (20 : ℚ) else 100)] := by
  have h := build_story_default_max_height imgWorld1020 ["Title", "BodyText"]
    ⟨"T", "B", some "img.png", some 0, none, none, [], [], true⟩ "img.png"
    rfl (Or.inr rfl)
  exact ⟨h.1, h.2 rfl 10 20 rfl (by norm_num) (by norm_num)⟩

/-! ## Font registration (src/register_fonts.py, src/fontspec.py)

The ReportLab process-wide font table becomes an explicit list of
registered names threaded through the fold; whether
`pdfmetrics.registerFont(TTFont(name, path))` raises for a given
name/path pair is abstracted as a boolean oracle `fails`.  Log calls
become an explicit event list, and each attempted engine registration is
recorded in `engineCalls`. -/

structure FontSpec where
  name : String
  file_path : String
  deriving DecidableEq, Repr

inductive RegLog where
  | dupWarning (name : String)
  | alreadyDebug (name : String)
  | registerError (name : String) (path : String)
  | registeredInfo (name : String) (path : String)
  deriving DecidableEq, Repr

structure RegState where
  seen : List String
  table : List String
  log : List RegLog
  engineCalls : List (String × String)
  deriving DecidableEq, Repr

/-- One iteration of the loop in `register_fonts` (src/register_fonts.py,
lines 29-53): skip duplicates of a name seen in this call, skip names
already in the engine table, otherwise attempt engine registration,
logging an error instead of raising when it fails. -/
def registerStep (fails : String → String → Bool) (st : RegState)
    (spec : FontSpec) : RegState :=
  if spec.name ∈ st.seen then
    { st with log := st.log ++ [.dupWarning spec.name] }
  else if spec.name ∈ st.table then
    { st with seen := st.seen ++ [spec.name],
              log := st.log ++ [.alreadyDebug spec.name] }
  else if fails spec.name spec.file_path then
    { st with seen := st.seen ++ [spec.name],
              engineCalls := st.engineCalls ++ [(spec.name, spec.file_path)],
              log := st.log ++ [.registerError spec.name spec.file_path] }
  else
    { st with seen := st.seen ++ [spec.name],
              engineCalls := st.engineCalls ++ [(spec.name, spec.file_path)],
              table := st.table ++ [spec.name],
              log := st.log ++ [.registeredInfo spec.name spec.file_path] }

/-- Embedding of `register_fonts` (src/register_fonts.py, lines 9-53),
started on an engine font table `table` with an empty `seen_names` set. -/
def register_fonts (fails : String → String → Bool) (fonts : List FontSpec)
    (table : List String) : RegState :=
  fonts.foldl (registerStep fails) ⟨[], table, [], []⟩

/-- Folding from any intermediate state preserves any invariant preserved
by one step. -/
theorem registerFold_inv (fails : String → String → Bool)
    (P : RegState → Prop)
    (hstep : ∀ st spec, P st → P (registerStep fails st spec)) :
    ∀ (fonts : List FontSpec) (st : RegState), P st →
      P (fonts.foldl (registerStep fails) st) := by
  intro fonts
  induction fonts with
  | nil => intro st h; exact h
  | cons f rest ih => intro st h; exact ih _ (hstep st f h)

/-- A step never removes a name from the engine table. -/
theorem registerStep_table_mem (fails : String → String → Bool)
    (st : RegState) (spec : FontSpec) (x : String) (h : x ∈ st.table) :
    x ∈ (registerStep fails st spec).table := by
  unfold registerStep
  by_cases h1 : spec.name ∈ st.seen
  · rw [if_pos h1]; exact h
  · rw [if_neg h1]
    by_cases h2 : spec.name ∈ st.table
    · rw [if_pos h2]; exact h
    · rw [if_neg h2]
      by_cases h3 : fails spec.name spec.file_path
      · rw [if_pos h3]; exact h
      · rw [if_neg h3]; exact List.mem_append_left _ h

/-- A step never removes a name from the seen set. -/
theorem registerStep_seen_mem (fails : String → String → Bool)
    (st : RegState) (spec : FontSpec) (x : String) (h : x ∈ st.seen) :
    x ∈ (registerStep fails st spec).seen := by
  unfold registerStep
  by_cases h1 : spec.name ∈ st.seen
  · rw [if_pos h1]; exact h
  · rw [if_neg h1]
    by_cases h2 : spec.name ∈ st.table
    · rw [if_pos h2]; exact List.mem_append_left _ h
    · rw [if_neg h2]
      by_cases h3 : fails spec.name spec.file_path
      · rw [if_pos h3]; exact List.mem_append_left _ h
      · rw [if_neg h3]; exact List.mem_append_left _ h

/-- A step never removes a log event. -/
theorem registerStep_log_mem (fails : String → String → Bool)
    (st : RegState) (spec : FontSpec) (e : RegLog) (h : e ∈ st.log) :
    e ∈ (registerStep fails st spec).log := by
  unfold registerStep
  by_cases h1 : spec.name ∈ st.seen
  · rw [if_pos h1]; exact List.mem_append_left _ h
  · rw [if_neg h1]
    by_cases h2 : spec.name ∈ st.table
    · rw [if_pos h2]; exact List.mem_append_left _ h
    · rw [if_neg h2]
      by_cases h3 : fails spec.name spec.file_path
      · rw [if_pos h3]; exact List.mem_append_left _ h
      · rw [if_neg h3]; exact List.mem_append_left _ h

/-- After a step, the processed spec's name is in the seen set. -/
theorem registerStep_own_seen (fails : String → String → Bool)
    (st : RegState) (spec : FontSpec) :
    spec.name ∈ (registerStep fails st spec).seen := by
  unfold registerStep
  by_cases h1 : spec.name ∈ st.seen
  · rw [if_pos h1]; exact h1
  · rw [if_neg h1]
    by_cases h2 : spec.name ∈ st.table
    · rw [if_pos h2]; exact List.mem_append_right _ (List.mem_singleton_self _)
    · rw [if_neg h2]
      by_cases h3 : fails spec.name spec.file_path
      · rw [if_pos h3]; exact List.mem_append_right _ (List.mem_singleton_self _)
      · rw [if_neg h3]; exact List.mem_append_right _ (List.mem_singleton_self _)

/-- Folding preserves table membership. -/
theorem registerFold_table_mem (fails : String → String → Bool)
    (fonts : List FontSpec) (st : RegState) (x : String) (h : x ∈ st.table) :
    x ∈ (fonts.foldl (registerStep fails) st).table :=
  registerFold_inv fails (fun s => x ∈ s.table)
    (fun s spec hs => registerStep_table_mem fails s spec x hs) fonts st h

/-- Folding preserves seen membership. -/
theorem registerFold_seen_mem (fails : String → String → Bool)
    (fonts : List FontSpec) (st : RegState) (x : String) (h : x ∈ st.seen) :
    x ∈ (fonts.foldl (registerStep fails) st).seen :=
  registerFold_inv fails (fun s => x ∈ s.seen)
    (fun s spec hs => registerStep_seen_mem fails s spec x hs) fonts st h

/-- Folding preserves log membership. -/
theorem registerFold_log_mem (fails : String → String → Bool)
    (fonts : List FontSpec) (st : RegState) (e : RegLog) (h : e ∈ st.log) :
    e ∈ (fonts.foldl (registerStep fails) st).log :=
  registerFold_inv fails (fun s => e ∈ s.log)
    (fun s spec hs => registerStep_log_mem fails s spec e hs) fonts st h

/-- A name in the seen set but not in the table is never added to the
table by the remaining iterations: only unseen names get registered. -/
theorem registerFold_seen_not_added (fails : String → String → Bool)
    (fonts : List FontSpec) (st : RegState) (x : String)
    (hs : x ∈ st.seen) (ht : x ∉ st.table) :
    x ∉ (fonts.foldl (registerStep fails) st).table := by
  have h := registerFold_inv fails (fun s => x ∈ s.seen ∧ x ∉ s.table)
    (fun s spec hp => by
      obtain ⟨hps, hpt⟩ := hp
      refine ⟨registerStep_seen_mem fails s spec x hps, ?_⟩
      unfold registerStep
      by_cases h1 : spec.name ∈ s.seen
      · rw [if_pos h1]; exact hpt
      · rw [if_neg h1]
        by_cases h2 : spec.name ∈ s.table
        · rw [if_pos h2]; exact hpt
        · rw [if_neg h2]
          by_cases h3 : fails spec.name spec.file_path
          · rw [if_pos h3]; exact hpt
          · rw [if_neg h3]
            intro hmem
            rcases List.mem_append.mp hmem with hmem | hmem
            · exact hpt hmem
            · rw [List.mem_singleton.mp hmem] at hps
              exact h1 hps) fonts st ⟨hs, ht⟩
  exact h.2

/-- Step on a duplicate name: only a warning is logged. -/
theorem registerStep_dup (fails : String → String → Bool)
    (s t : List String) (l : List RegLog) (e : List (String × String))
    (f : FontSpec) (h1 : f.name ∈ s) :
    registerStep fails ⟨s, t, l, e⟩ f = ⟨s, t, l ++ [.dupWarning f.name], e⟩ := by
  unfold registerStep
  rw [if_pos h1]

/-- Step on an already-registered name: marked seen, debug logged, no
engine call. -/
theorem registerStep_already (fails : String → String → Bool)
    (s t : List String) (l : List RegLog) (e : List (String × String))
    (f : FontSpec) (h1 : f.name ∉ s) (h2 : f.name ∈ t) :
    registerStep fails ⟨s, t, l, e⟩ f =
      ⟨s ++ [f.name], t, l ++ [.alreadyDebug f.name], e⟩ := by
  unfold registerStep
  rw [if_neg h1, if_pos h2]

/-- Step on a fresh name whose registration fails: error logged, engine
call recorded, table unchanged. -/
theorem registerStep_fail (fails : String → String → Bool)
    (s t : List String) (l : List RegLog) (e : List (String × String))
    (f : FontSpec) (h1 : f.name ∉ s) (h2 : f.name ∉ t)
    (h3 : fails f.name f.file_path = true) :
    registerStep fails ⟨s, t, l, e⟩ f =
      ⟨s ++ [f.name], t, l ++ [.registerError f.name f.file_path],
       e ++ [(f.name, f.file_path)]⟩ := by
  unfold registerStep
  rw [if_neg h1, if_neg h2, if_pos h3]

/-- Step on a fresh name whose registration succeeds: name added to the
table, engine call recorded. -/
theorem registerStep_success (fails : String → String → Bool)
    (s t : List String) (l : List RegLog) (e : List (String × String))
    (f : FontSpec) (h1 : f.name ∉ s) (h2 : f.name ∉ t)
    (h3 : fails f.name f.file_path = false) :
    registerStep fails ⟨s, t, l, e⟩ f =
      ⟨s ++ [f.name], t ++ [f.name], l ++ [.registeredInfo f.name f.file_path],
       e ++ [(f.name, f.file_path)]⟩ := by
  unfold registerStep
  rw [if_neg h1, if_neg h2, if_neg (by rw [h3]; exact Bool.false_ne_true)]

/-- Rerunning the loop body over the same font list, starting from the
table the first run produced, leaves the table unchanged: names that
were registered are skipped via the table lookup, names that failed fail
again, duplicates are skipped via the seen set. -/
theorem register_run_idem_aux (fails : String → String → Bool) :
    ∀ (fonts : List FontSpec) (s t : List String) (l l' : List RegLog)
      (e e' : List (String × String)),
      (fonts.foldl (registerStep fails)
          ⟨s, (fonts.foldl (registerStep fails) ⟨s, t, l, e⟩).table, l', e'⟩).table
        = (fonts.foldl (registerStep fails) ⟨s, t, l, e⟩).table := by
  intro fonts
  induction fonts with
  | nil => intro s t l l' e e'; rfl
  | cons f rest ih =>
    intro s t l l' e e'
    simp only [List.foldl_cons]
    by_cases h1 : f.name ∈ s
    · rw [registerStep_dup fails s t l e f h1]
      rw [registerStep_dup fails s _ l' e' f h1]
      exact ih _ _ _ _ _ _
    · by_cases h2 : f.name ∈ t
      · rw [registerStep_already fails s t l e f h1 h2]
        have hT1 : f.name ∈ (rest.foldl (registerStep fails)
            ⟨s ++ [f.name], t, l ++ [.alreadyDebug f.name], e⟩).table :=
          registerFold_table_mem fails rest _ f.name h2
        rw [registerStep_already fails s _ l' e' f h1 hT1]
        exact ih _ _ _ _ _ _
      · cases h3 : fails f.name f.file_path with
        | true =>
          rw [registerStep_fail fails s t l e f h1 h2 h3]
          have hT1 : f.name ∉ (rest.foldl (registerStep fails)
              ⟨s ++ [f.name], t, l ++ [.registerError f.name f.file_path],
                e ++ [(f.name, f.file_path)]⟩).table :=
            registerFold_seen_not_added fails rest _ f.name
              (List.mem_append_right _ (List.mem_singleton_self _)) h2
          rw [registerStep_fail fails s _ l' e' f h1 hT1 h3]
          exact ih _ _ _ _ _ _
        | false =>
          rw [registerStep_success fails s t l e f h1 h2 h3]
          have hT1 : f.name ∈ (rest.foldl (registerStep fails)
              ⟨s ++ [f.name], t ++ [f.name],
                l ++ [.registeredInfo f.name f.file_path],
                e ++ [(f.name, f.file_path)]⟩).table :=
            registerFold_table_mem fails rest _ f.name
              (List.mem_append_right _ (List.mem_singleton_self _))
          rw [registerStep_already fails s _ l' e' f h1 hT1]
          exact ih _ _ _ _ _ _

/-- Every processed spec's name ends up in the seen set. -/
theorem registerFold_mem_seen (fails : String → String → Bool) :
    ∀ (fonts : List FontSpec) (st : RegState) (f : FontSpec), f ∈ fonts →
      f.name ∈ (fonts.foldl (registerStep fails) st).seen := by
  intro fonts
  induction fonts with
  | nil => intro st f h; exact absurd h (List.not_mem_nil f)
  | cons g rest ih =>
    intro st f h
    simp only [List.foldl_cons]
    rcases List.mem_cons.mp h with h | h
    · subst h
      exact registerFold_seen_mem fails rest _ f.name (registerStep_own_seen fails st f)
    · exact ih _ f h

/-- A step on a name already seen logs a duplicate warning. -/
theorem registerStep_dup_logged (fails : String → String → Bool)
    (st : RegState) (f : FontSpec) (h1 : f.name ∈ st.seen) :
    RegLog.dupWarning f.name ∈ (registerStep fails st f).log := by
  obtain ⟨s, t, l, e⟩ := st
  rw [registerStep_dup fails s t l e f h1]
  exact List.mem_append_right _ (List.mem_singleton_self _)

/-- C4: `register_fonts` attempts engine registration at most once per
distinct name in one call; names already in the engine table get no
engine call; re-running the same call on the resulting table leaves the
table unchanged; and a spec whose name was seen earlier in the same call
gets a duplicate warning. -/
theorem register_fonts_idempotent (fails : String → String → Bool)
    (fonts : List FontSpec) (table : List String) :
    (∀ name, ((register_fonts fails fonts table).engineCalls.map Prod.fst).count name ≤ 1) ∧
    (∀ name ∈ table, ∀ c ∈ (register_fonts fails fonts table).engineCalls, c.1 ≠ name) ∧
    ((register_fonts fails fonts ((register_fonts fails fonts table).table)).table
       = (register_fonts fails fonts table).table) ∧
    (∀ l1 s l2, fonts = l1 ++ s :: l2 → s.name ∈ l1.map FontSpec.name →
       RegLog.dupWarning s.name ∈ (register_fonts fails fonts table).log) := by
  refine ⟨?_, ?_, ?_, ?_⟩
  · have hinv := registerFold_inv fails
      (fun st => (st.engineCalls.map Prod.fst).Nodup ∧
        ∀ c ∈ st.engineCalls, c.1 ∈ st.seen)
      (fun st spec hp => by
        obtain ⟨s, t, l, e⟩ := st
        obtain ⟨hnd, hmem⟩ := hp
        by_cases h1 : spec.name ∈ s
        · rw [registerStep_dup fails s t l e spec h1]
          exact ⟨hnd, hmem⟩
        · by_cases h2 : spec.name ∈ t
          · rw [registerStep_already fails s t l e spec h1 h2]
            exact ⟨hnd, fun c hc => List.mem_append_left _ (hmem c hc)⟩
          · have hfresh : spec.name ∉ e.map Prod.fst := by
              intro hin
              obtain ⟨c, hc, hceq⟩ := List.mem_map.mp hin
              exact h1 (hceq ▸ hmem c hc)
            have hnd' : ((e ++ [(spec.name, spec.file_path)]).map Prod.fst).Nodup := by
              rw [List.map_append, List.nodup_append]
              exact ⟨hnd, List.nodup_singleton _, by simpa using hfresh⟩
            have hmem' : ∀ c ∈ e ++ [(spec.name, spec.file_path)],
                c.1 ∈ s ++ [spec.name] := by
              intro c hc
              rcases List.mem_append.mp hc with hc | hc
              · exact List.mem_append_left _ (hmem c hc)
              · rw [List.mem_singleton.mp hc]
                exact List.mem_append_right _ (List.mem_singleton_self _)
            cases h3 : fails spec.name spec.file_path with
            | true =>
              rw [registerStep_fail fails s t l e spec h1 h2 h3]
              exact ⟨hnd', hmem'⟩
            | false =>
              rw [registerStep_success fails s t l e spec h1 h2 h3]
              exact ⟨hnd', hmem'⟩)
      fonts ⟨[], table, [], []⟩ ⟨List.nodup_nil, by simp⟩
    exact fun name => List.nodup_iff_count_le_one.mp hinv.1 name
  · intro name hname
    have h := registerFold_inv fails
      (fun st => name ∈ st.table ∧ ∀ c ∈ st.engineCalls, c.1 ≠ name)
      (fun st spec hp => by
        obtain ⟨s, t, l, e⟩ := st
        obtain ⟨htab, hcalls⟩ := hp
        by_cases h1 : spec.name ∈ s
        · rw [registerStep_dup fails s t l e spec h1]
          exact ⟨htab, hcalls⟩
        · by_cases h2 : spec.name ∈ t
          · rw [registerStep_already fails s t l e spec h1 h2]
            exact ⟨htab, hcalls⟩
          · have hne : spec.name ≠ name := fun heq => h2 (heq ▸ htab)
            have hcalls' : ∀ c ∈ e ++ [(spec.name, spec.file_path)], c.1 ≠ name := by
              intro c hc
              rcases List.mem_append.mp hc with hc | hc
              · exact hcalls c hc
              · rw [List.mem_singleton.mp hc]
                exact hne
            cases h3 : fails spec.name spec.file_path with
            | true =>
              rw [registerStep_fail fails s t l e spec h1 h2 h3]
              exact ⟨htab, hcalls'⟩
            | false =>
              rw [registerStep_success fails s t l e spec h1 h2 h3]
              exact ⟨List.mem_append_left _ htab, hcalls'⟩)
      fonts ⟨[], table, [], []⟩ ⟨hname, by simp⟩
    exact h.2
  · exact register_run_idem_aux fails fonts [] table [] [] [] []
  · intro l1 s l2 hsplit hmem
    obtain ⟨g, hg, hgname⟩ := List.mem_map.mp hmem
    unfold register_fonts
    rw [hsplit, List.foldl_append, List.foldl_cons]
    apply registerFold_log_mem
    apply registerStep_dup_logged
    rw [← hgname]
    exact registerFold_mem_seen fails l1 _ g hg

/-- An oracle under which every engine registration succeeds. -/
def failsNone : String → String → Bool := fun _ _ => false

/-- Two specs sharing one font name. -/
def fontsDup : List FontSpec :=
  [⟨"Roboto-Reg", "a.ttf"⟩, ⟨"Roboto-Reg", "b.ttf"⟩]

/-- Witness for C4, on two specs with the same name and a table already
holding another font. -/
theorem register_fonts_idempotent_witness :
    ((register_fonts failsNone fontsDup ["Inter-Reg"]).engineCalls.map
        Prod.fst).count "Roboto-Reg" ≤ 1 ∧
    (register_fonts failsNone fontsDup
        (register_fonts failsNone fontsDup ["Inter-Reg"]).table).table
      = (register_fonts failsNone fontsDup ["Inter-Reg"]).table ∧
    RegLog.dupWarning "Roboto-Reg" ∈
      (register_fonts failsNone fontsDup ["Inter-Reg"]).log := by
  have h := register_fonts_idempotent failsNone fontsDup ["Inter-Reg"]
  exact ⟨h.1 "Roboto-Reg", h.2.2.1,
    h.2.2.2 [⟨"Roboto-Reg", "a.ttf"⟩] ⟨"Roboto-Reg", "b.ttf"⟩ [] rfl (by decide)⟩

/-- Processing disjointly-named, fresh specs: every spec gets exactly one
engine call, in order, regardless of which registrations fail, and every
failing spec's error is logged. -/
theorem register_fresh_aux (fails : String → String → Bool) :
    ∀ (fonts : List FontSpec) (s t : List String) (l : List RegLog)
      (e : List (String × String)),
      (fonts.map FontSpec.name).Nodup →
      (∀ f ∈ fonts, f.name ∉ s ∧ f.name ∉ t) →
      ((fonts.foldl (registerStep fails) ⟨s, t, l, e⟩).engineCalls
          = e ++ fonts.map (fun f => (f.name, f.file_path))) ∧
      (∀ f ∈ fonts, fails f.name f.file_path = true →
          RegLog.registerError f.name f.file_path ∈
            (fonts.foldl (registerStep fails) ⟨s, t, l, e⟩).log) := by
  intro fonts
  induction fonts with
  | nil =>
    intro s t l e _ _
    exact ⟨by simp, by simp⟩
  | cons f rest ih =>
    intro s t l e hnd hfresh
    obtain ⟨hfs, hft⟩ := hfresh f (List.mem_cons_self f rest)
    have hnd' : (f.name ∉ rest.map FontSpec.name) ∧ (rest.map FontSpec.name).Nodup := by
      rw [List.map_cons, List.nodup_cons] at hnd
      exact hnd
    have hrest : ∀ g ∈ rest, g.name ≠ f.name := by
      intro g hg heq
      exact hnd'.1 (heq ▸ List.mem_map_of_mem FontSpec.name hg)
    simp only [List.foldl_cons, List.map_cons]
    cases h3 : fails f.name f.file_path with
    | true =>
      rw [registerStep_fail fails s t l e f hfs hft h3]
      have hfresh' : ∀ g ∈ rest, g.name ∉ s ++ [f.name] ∧ g.name ∉ t := by
        intro g hg
        refine ⟨?_, (hfresh g (List.mem_cons_of_mem f hg)).2⟩
        intro hin
        rcases List.mem_append.mp hin with hin | hin
        · exact (hfresh g (List.mem_cons_of_mem f hg)).1 hin
        · exact hrest g hg (List.mem_singleton.mp hin)
      obtain ⟨hec, hlog⟩ := ih (s ++ [f.name]) t
        (l ++ [.registerError f.name f.file_path]) (e ++ [(f.name, f.file_path)])
        hnd'.2 hfresh'
      refine ⟨by rw [hec]; simp, ?_⟩
      intro g hg hgf
      rcases List.mem_cons.mp hg with hg | hg
      · subst hg
        apply registerFold_log_mem
        exact List.mem_append_right _ (List.mem_singleton_self _)
      · exact hlog g hg hgf
    | false =>
      rw [registerStep_success fails s t l e f hfs hft h3]
      have hfresh' : ∀ g ∈ rest, g.name ∉ s ++ [f.name] ∧ g.name ∉ t ++ [f.name] := by
        intro g hg
        constructor
        · intro hin
          rcases List.mem_append.mp hin with hin | hin
          · exact (hfresh g (List.mem_cons_of_mem f hg)).1 hin
          · exact hrest g hg (List.mem_singleton.mp hin)
        · intro hin
          rcases List.mem_append.mp hin with hin | hin
          · exact (hfresh g (List.mem_cons_of_mem f hg)).2 hin
          · exact hrest g hg (List.mem_singleton.mp hin)
      obtain ⟨hec, hlog⟩ := ih (s ++ [f.name]) (t ++ [f.name])
        (l ++ [.registeredInfo f.name f.file_path]) (e ++ [(f.name, f.file_path)])
        hnd'.2 hfresh'
      refine ⟨by rw [hec]; simp, ?_⟩
      intro g hg hgf
      rcases List.mem_cons.mp hg with hg | hg
      · subst hg
        rw [hgf] at h3
        exact absurd h3 (by simp)
      · exact hlog g hg hgf

/-- C8: with distinct fresh names, a registration failure for one spec is
logged as an error and does not stop the others: every spec in the list
still gets its engine registration attempt, in order. -/
theorem register_fonts_error_isolation (fails : String → String → Bool)
    (fonts : List FontSpec) (table : List String)
    (hnd : (fonts.map FontSpec.name).Nodup)
    (hfresh : ∀ f ∈ fonts, f.name ∉ table) :
    ((register_fonts fails fonts table).engineCalls
        = fonts.map (fun f => (f.name, f.file_path))) ∧
    (∀ f ∈ fonts, fails f.name f.file_path = true →
        RegLog.registerError f.name f.file_path ∈
          (register_fonts fails fonts table).log) := by
  have h := register_fresh_aux fails fonts [] table [] [] hnd
    (fun f hf => ⟨List.not_mem_nil _, hfresh f hf⟩)
  exact ⟨by simpa using h.1, h.2⟩

/-- An oracle under which exactly the font named "BadFont12" fails to
register. -/
def failsBad : String → String → Bool := fun n _ => n == "BadFont12"

/-- A failing spec followed by a succeeding one. -/
def fontsBadGood : List FontSpec :=
  [⟨"BadFont12", "bad.ttf"⟩, ⟨"GoodFont1", "g.ttf"⟩]

/-- Witness for C8: the bad font's failure is logged and the later good
font is still attempted. -/
theorem register_fonts_error_isolation_witness :
    (register_fonts failsBad fontsBadGood []).engineCalls
      = [("BadFont12", "bad.ttf"), ("GoodFont1", "g.ttf")] ∧
    RegLog.registerError "BadFont12" "bad.ttf" ∈
      (register_fonts failsBad fontsBadGood []).log := by
  have h := register_fonts_error_isolation failsBad fontsBadGood []
    (by decide) (by decide)
  exact ⟨h.1, h.2 ⟨"BadFont12", "bad.ttf"⟩ (by decide) (by decide)⟩

/-! ## Style construction (src/make_styles.py)

Attribute values are Python scalars: strings, ints, floats, Color
objects (kept as their 8-bit RGB components, as `colors.HexColor`
produces them) and `None`.  Python `==` compares ints and floats
numerically.  `ParagraphStyle` objects become name + attribute list;
`getattr(style, key, None)` and `setattr` become list lookups/updates. -/

inductive PyVal where
  | str (s : String)
  | int (n : Int)
  | float (q : ℚ)
  | color (r g b : Nat)
  | pynone
  deriving DecidableEq, Repr

/-- Python `==` on the attribute values that occur here: `int` and
`float` compare numerically, different kinds otherwise compare false. -/
def pyEq : PyVal → PyVal → Bool
  | .str a, .str b => a == b
  | .int a, .int b => a == b
  | .float a, .float b => a == b
  | .int a, .float b => (a : ℚ) == b
  | .float a, .int b => a == ((b : ℚ))
  | .color r g b, .color r' g' b' => r == r' && g == g' && b == b'
  | .pynone, .pynone => true
  | _, _ => false

def isStr : PyVal → Bool
  | .str _ => true
  | _ => false

def isNum : PyVal → Bool
  | .int _ => true
  | .float _ => true
  | _ => false

def isInt : PyVal → Bool
  | .int _ => true
  | _ => false

def isColorOrStr : PyVal → Bool
  | .color _ _ _ => true
  | .str _ => true
  | _ => false

/-- The whitelist `_ALLOWED_ATTRS` (src/make_styles.py, lines 14-31):
attribute name paired with its `isinstance` check. -/
def _ALLOWED_ATTRS : List (String × (PyVal → Bool)) :=
  [("fontName", isStr), ("fontSize", isNum), ("leading", isNum),
   ("textColor", isColorOrStr), ("backColor", isColorOrStr),
   ("alignment", isInt), ("spaceBefore", isNum), ("spaceAfter", isNum),
   ("leftIndent", isNum), ("rightIndent", isNum), ("firstLineIndent", isNum),
   ("wordWrap", isStr), ("kerning", isNum), ("tracking", isNum),
   ("underlineWidth", isNum), ("underlineOffset", isNum)]

/-- `ALLOWED_ALIGNMENTS = {TA_LEFT, TA_RIGHT, TA_CENTER, TA_JUSTIFY}`,
whose ReportLab enum values are 0, 2, 1, 4. -/
def ALLOWED_ALIGNMENTS : List Int := [0, 2, 1, 4]

def hexDigitVal (c : Char) : Option Nat :=
  if c.isDigit then some (c.toNat - 48)
  else if 'a' ≤ c ∧ c ≤ 'f' then some (c.toNat - 87)
  else if 'A' ≤ c ∧ c ≤ 'F' then some (c.toNat - 55)
  else none

def parseHexAux : Nat → List Char → Option Nat
  | acc, [] => some acc
  | acc, c :: cs =>
    match hexDigitVal c with
    | none => none
    | some d => parseHexAux (acc * 16 + d) cs

/-- `int(s, 16)`: fails on an empty or non-hexadecimal string. -/
def parseHexNat (s : List Char) : Option Nat :=
  if s = [] then none else parseHexAux 0 s

/-- `colors.HexColor` on a string that starts with `#`: strips the `#`,
doubles each digit of a 3-digit form, parses base 16, and takes the low
three bytes as RGB. Fails (raises) only on non-hex digits. -/
def hexColor (hex_str : String) : Option PyVal :=
  let v := hex_str.toList.drop 1
  let v := if v.length = 3 then v.foldr (fun c acc => c :: c :: acc) [] else v
  (parseHexNat v).map (fun n => PyVal.color ((n >>> 16) % 256) ((n >>> 8) % 256) (n % 256))

/-- Embedding of `_normalize_value` (src/make_styles.py, lines 131-141):
`None` passes through; a string for a color attribute is `#`-prefixed if
needed and parsed as hex, falling back to the raw string. -/
def _normalize_value (key : String) (value : PyVal) : PyVal :=
  match value with
  | .pynone => .pynone
  | .str s =>
    if key = "textColor" ∨ key = "backColor" then
      let hex_str := if s.startsWith "#" then s else "#" ++ s
      match hexColor hex_str with
      | some c => c
      | none => .str s
    else .str s
  | v => v

structure PStyle where
  name : String
  attrs : List (String × PyVal)
  deriving DecidableEq, Repr

/-- `getattr(style, key, None)`. -/
def getAttr (st : PStyle) (key : String) : PyVal :=
  match st.attrs.lookup key with
  | some v => v
  | none => .pynone

def setAttrList : List (String × PyVal) → String → PyVal → List (String × PyVal)
  | [], k, v => [(k, v)]
  | (k', v') :: rest, k, v =>
    if k' = k then (k, v) :: rest else (k', v') :: setAttrList rest k v

/-- `setattr(style, key, value)`. -/
def setAttr (st : PStyle) (k : String) (v : PyVal) : PStyle :=
  ⟨st.name, setAttrList st.attrs k v⟩

inductive StyleLog where
  | warnNotAllowed (key styleName : String)
  | warnBadType (key styleName : String)
  | warnBadAlignment (v : PyVal) (styleName : String)
  | debugIdempotent (styleName key : String) (v : PyVal)
  | infoSet (styleName key : String) (old new : PyVal)
  | warnMissingStyle (styleName : String)
  | infoCreated (styleName parent : String)
  deriving DecidableEq, Repr

/-- The alignment guard `value not in ALLOWED_ALIGNMENTS` (together with
its `isinstance(value, int)` test). -/
def badAlignment : PyVal → Bool
  | .int n => decide (n ∉ ALLOWED_ALIGNMENTS)
  | _ => false

/-- One iteration of the loop in `_apply_style_overrides`
(src/make_styles.py, lines 100-128), processing a single override entry
against a style. -/
def _apply_one (style : PStyle) (key : String) (raw_val : PyVal) :
    PStyle × List StyleLog :=
  match _ALLOWED_ATTRS.lookup key with
  | none => (style, [.warnNotAllowed key style.name])
  | some expected =>
    let value := _normalize_value key raw_val
    if expected value = false then
      (style, [.warnBadType key style.name])
    else if key = "alignment" ∧ badAlignment value = true then
      (style, [.warnBadAlignment value style.name])
    else if pyEq (getAttr style key) value = true then
      (style, [.debugIdempotent style.name key value])
    else
      (setAttr style key value, [.infoSet style.name key (getAttr style key) value])

/-- Embedding of `_apply_style_overrides`: fold `_apply_one` over the
override entries, accumulating the log. -/
def _apply_style_overrides (style : PStyle) (attrs : List (String × PyVal)) :
    PStyle × List StyleLog :=
  attrs.foldl
    (fun acc kv =>
      ((_apply_one acc.1 kv.1 kv.2).1, acc.2 ++ (_apply_one acc.1 kv.1 kv.2).2))
    (style, [])

/-- C6: per override entry — an unknown attribute is skipped with a
warning and the style unchanged; a whitelisted, well-typed value equal
(Python `==`, after normalization) to the current one leaves the style
unmutated with a debug log; an alignment value outside the four
constants is skipped with a warning and the style (hence its alignment)
unchanged. -/
theorem style_override_skip_spec (style : PStyle) (key : String) (v : PyVal) :
    (_ALLOWED_ATTRS.lookup key = none →
      _apply_one style key v = (style, [.warnNotAllowed key style.name])) ∧
    (∀ chk, _ALLOWED_ATTRS.lookup key = some chk →
      chk (_normalize_value key v) = true →
      ¬ (key = "alignment" ∧ badAlignment (_normalize_value key v) = true) →
      pyEq (getAttr style key) (_normalize_value key v) = true →
      _apply_one style key v =
        (style, [.debugIdempotent style.name key (_normalize_value key v)])) ∧
    (∀ n : Int, key = "alignment" → v = .int n → n ∉ ALLOWED_ALIGNMENTS →
      _apply_one style key v = (style, [.warnBadAlignment (.int n) style.name])) := by
  refine ⟨?_, ?_, ?_⟩
  · intro hnone
    unfold _apply_one
    rw [hnone]
  · intro chk hsome htype halign heq
    unfold _apply_one
    rw [hsome]
    simp only [htype, if_neg halign, heq, if_pos]
    rw [if_neg (by simp)]
  · intro n hkey hv hnotin
    subst hkey
    subst hv
    have hlk : _ALLOWED_ATTRS.lookup "alignment" = some isInt := rfl
    unfold _apply_one
    rw [hlk]
    dsimp only
    have hnorm : _normalize_value "alignment" (PyVal.int n) = PyVal.int n := rfl
    rw [hnorm]
    rw [if_neg (by simp [isInt])]
    rw [if_pos ⟨rfl, decide_eq_true hnotin⟩]

/-- A concrete style for the C6 witness. -/
def bodyStyle0 : PStyle := ⟨"Body", [("fontSize", .int 12), ("alignment", .int 0)]⟩

/-- Witness for C6: an unknown attribute, an idempotent override of
`fontSize` to its current value, and an out-of-range alignment, all on a
concrete style. -/
theorem style_override_skip_spec_witness :
    _apply_one bodyStyle0 "fontWeight" (.str "bold") =
      (bodyStyle0, [.warnNotAllowed "fontWeight" "Body"]) ∧
    _apply_one bodyStyle0 "fontSize" (.int 12) =
      (bodyStyle0, [.debugIdempotent "Body" "fontSize" (.int 12)]) ∧
    _apply_one bodyStyle0 "alignment" (.int 3) =
      (bodyStyle0, [.warnBadAlignment (.int 3) "Body"]) := by
  refine ⟨?_, ?_, ?_⟩
  · exact (style_override_skip_spec bodyStyle0 "fontWeight" (.str "bold")).1 rfl
  · exact (style_override_skip_spec bodyStyle0 "fontSize" (.int 12)).2.1
      isNum rfl rfl (by simp) (by decide)
  · exact (style_override_skip_spec bodyStyle0 "alignment" (.int 3)).2.2
      3 rfl rfl (by decide)

/-! ## Heap model for `make_styles` (src/make_styles.py, lines 34-97)

`make_styles` deep-copies the base `StyleSheet1` and then mutates the
copies in place, so object identity matters: a stylesheet is a list of
name → cell-reference pairs into an explicit heap of style cells.
`copy.deepcopy` allocates fresh cells, memoizing shared references. -/

structure Heap where
  cells : List PStyle
  deriving DecidableEq, Repr

def heapGet (h : Heap) (r : Nat) : PStyle :=
  h.cells.getD r ⟨"", []⟩

def heapSet (h : Heap) (r : Nat) (st : PStyle) : Heap :=
  ⟨h.cells.set r st⟩

def heapAlloc (h : Heap) (st : PStyle) : Heap × Nat :=
  (⟨h.cells ++ [st]⟩, h.cells.length)

structure StyleSheet where
  byName : List (String × Nat)
  deriving DecidableEq, Repr

/-- `copy.deepcopy` of the `byName` registry: allocate a fresh cell per
distinct referenced cell, preserving sharing through the memo table. -/
def cloneAux : List (String × Nat) → Heap → List (Nat × Nat) →
    List (String × Nat) × Heap × List (Nat × Nat)
  | [], h, memo => ([], h, memo)
  | (n, r) :: rest, h, memo =>
    match memo.lookup r with
    | some r' =>
      let res := cloneAux rest h memo
      ((n, r') :: res.1, res.2)
    | none =>
      let ar := heapAlloc h (heapGet h r)
      let res := cloneAux rest ar.1 ((r, ar.2) :: memo)
      ((n, ar.2) :: res.1, res.2)

/-- Embedding of `_clone_stylesheet` (src/make_styles.py, lines 144-148). -/
def _clone_stylesheet (h : Heap) (ss : StyleSheet) : StyleSheet × Heap :=
  let res := cloneAux ss.byName h []
  (⟨res.1⟩, res.2.1)

/-- The per-override-entry loop of `make_styles` (src/make_styles.py,
lines 80-95): create missing styles (inheriting the parent's attributes,
as `ParagraphStyle(name, parent=...)` does) or skip them, then apply the
attribute overrides to the style cell in place. -/
def applyOverridesLoop (cm : Bool) (pfn : String) :
    List (String × List (String × PyVal)) → StyleSheet → Heap →
    List StyleLog → Except String (StyleSheet × Heap × List StyleLog)
  | [], styles, h, log => .ok (styles, h, log)
  | (style_name, attrs) :: rest, styles, h, log =>
    match styles.byName.lookup style_name with
    | some r =>
      applyOverridesLoop cm pfn rest styles
        (heapSet h r (_apply_style_overrides (heapGet h r) attrs).1)
        (log ++ (_apply_style_overrides (heapGet h r) attrs).2)
    | none =>
      if cm = false then
        applyOverridesLoop cm pfn rest styles h (log ++ [.warnMissingStyle style_name])
      else
        match styles.byName.lookup pfn with
        | none =>
          .error ("Parent style '" ++ pfn ++ "' not found; cannot create new style '"
            ++ style_name ++ "'.")
        | some pr =>
          applyOverridesLoop cm pfn rest
            ⟨styles.byName ++ [(style_name, (heapAlloc h ⟨style_name, (heapGet h pr).attrs⟩).2)]⟩
            (heapSet (heapAlloc h ⟨style_name, (heapGet h pr).attrs⟩).1
              (heapAlloc h ⟨style_name, (heapGet h pr).attrs⟩).2
              (_apply_style_overrides
                (heapGet (heapAlloc h ⟨style_name, (heapGet h pr).attrs⟩).1
                  (heapAlloc h ⟨style_name, (heapGet h pr).attrs⟩).2) attrs).1)
            (log ++ [.infoCreated style_name pfn]
               ++ (_apply_style_overrides
                    (heapGet (heapAlloc h ⟨style_name, (heapGet h pr).attrs⟩).1
                      (heapAlloc h ⟨style_name, (heapGet h pr).attrs⟩).2) attrs).2)

/-- Embedding of `make_styles` (src/make_styles.py, lines 34-97) on an
explicitly given base stylesheet. -/
def make_styles (h : Heap) (base : StyleSheet)
    (overrides : List (String × List (String × PyVal)))
    (create_missing : Bool := true) (parent_for_new : String := "Normal") :
    Except String (StyleSheet × Heap × List StyleLog) :=
  let cl := _clone_stylesheet h base
  if overrides = [] then .ok (cl.1, cl.2, [])
  else applyOverridesLoop create_missing parent_for_new overrides cl.1 cl.2 []

/-- Setting a cell at or beyond index `n` leaves the first `n` cells
unchanged. -/
theorem set_append_of_le {α : Type} (l1 l2 : List α) (r : Nat) (v : α)
    (h : l1.length ≤ r) :
    (l1 ++ l2).set r v = l1 ++ l2.set (r - l1.length) v := by
  induction l1 generalizing r with
  | nil => simp
  | cons a l1 ih =>
    cases r with
    | zero =>
      exfalso
      simp only [List.length_cons] at h
      omega
    | succ r' =>
      have hsub : r' + 1 - (l1.length + 1) = r' - l1.length := by omega
      show a :: (l1 ++ l2).set r' v = a :: (l1 ++ l2.set (r' + 1 - (l1.length + 1)) v)
      rw [hsub, ih r' (Nat.le_of_succ_le_succ h)]

/-- `cloneAux` only appends to the heap. -/
theorem cloneAux_extends :
    ∀ (entries : List (String × Nat)) (h : Heap) (memo : List (Nat × Nat)),
      ∃ tail, (cloneAux entries h memo).2.1.cells = h.cells ++ tail := by
  intro entries
  induction entries with
  | nil => intro h memo; exact ⟨[], by simp [cloneAux]⟩
  | cons p rest ih =>
    intro h memo
    obtain ⟨n, r⟩ := p
    unfold cloneAux
    cases hm : memo.lookup r with
    | some r' =>
      obtain ⟨tail, htail⟩ := ih h memo
      exact ⟨tail, htail⟩
    | none =>
      obtain ⟨tail, htail⟩ := ih ⟨h.cells ++ [heapGet h r]⟩ ((r, h.cells.length) :: memo)
      exact ⟨[heapGet h r] ++ tail, by simpa [heapAlloc, List.append_assoc] using htail⟩

/-- A successful `List.lookup` on an association list comes from a
member pair. -/
theorem lookup_mem_pairs {α β : Type} [BEq α] [LawfulBEq α] :
    ∀ (l : List (α × β)) (k : α) (v : β), l.lookup k = some v → (k, v) ∈ l := by
  intro l
  induction l with
  | nil => intro k v h; exact absurd h (by simp [List.lookup])
  | cons p rest ih =>
    intro k v h
    obtain ⟨k', v'⟩ := p
    rw [List.lookup] at h
    cases hbeq : k == k' with
    | true =>
      rw [hbeq] at h
      have hk : k = k' := by exact_mod_cast eq_of_beq hbeq
      have hv : v' = v := by injection h
      exact List.mem_cons.mpr (Or.inl (by rw [hk, hv]))
    | false =>
      rw [hbeq] at h
      exact List.mem_cons.mpr (Or.inr (ih k v h))

/-- All references `cloneAux` hands out are fresh: at least `N`, for any
lower bound `N` below the heap size that also bounds the memo. -/
theorem cloneAux_refs (N : Nat) :
    ∀ (entries : List (String × Nat)) (h : Heap) (memo : List (Nat × Nat)),
      N ≤ h.cells.length → (∀ pr ∈ memo, N ≤ pr.2) →
      (∀ q ∈ (cloneAux entries h memo).1, N ≤ q.2) := by
  intro entries
  induction entries with
  | nil =>
    intro h memo _ _ q hq
    exact absurd hq (by simp [cloneAux])
  | cons p rest ih =>
    intro h memo hN hmemo q hq
    obtain ⟨n, r⟩ := p
    unfold cloneAux at hq
    cases hm : memo.lookup r with
    | some r' =>
      rw [hm] at hq
      rcases List.mem_cons.mp hq with hq | hq
      · subst hq
        exact hmemo (r, r') (lookup_mem_pairs memo r r' hm)
      · exact ih h memo hN hmemo q hq
    | none =>
      rw [hm] at hq
      rcases List.mem_cons.mp hq with hq | hq
      · subst hq
        exact hN
      · refine ih ⟨h.cells ++ [heapGet h r]⟩ ((r, h.cells.length) :: memo)
          (by simp; omega) ?_ q hq
        intro pr hpr
        rcases List.mem_cons.mp hpr with hpr | hpr
        · subst hpr; exact hN
        · exact hmemo pr hpr

/-- Setting a reference at or beyond the prefix length preserves the
prefix. -/
theorem set_extends {α : Type} (origCells l : List α) (r : Nat) (v : α)
    (hext : ∃ tail, l = origCells ++ tail) (hr : origCells.length ≤ r) :
    ∃ tail, l.set r v = origCells ++ tail := by
  obtain ⟨tail, rfl⟩ := hext
  exact ⟨tail.set (r - origCells.length) v, set_append_of_le _ _ _ _ hr⟩

/-- Frame property of the override loop: when every stylesheet reference
points at or beyond the first `origCells.length` heap cells, those cells
are never touched — the loop only reads, sets and allocates at fresh
references. -/
theorem applyLoop_frame (cm : Bool) (pfn : String) (origCells : List PStyle) :
    ∀ (ov : List (String × List (String × PyVal))) (styles : StyleSheet)
      (h : Heap) (log : List StyleLog),
      (∃ tail, h.cells = origCells ++ tail) →
      (∀ q ∈ styles.byName, origCells.length ≤ q.2) →
      ∀ ss' h' lg, applyOverridesLoop cm pfn ov styles h log = .ok (ss', h', lg) →
        (∃ tail, h'.cells = origCells ++ tail) ∧
        (∀ q ∈ ss'.byName, origCells.length ≤ q.2) := by
  intro ov
  induction ov with
  | nil =>
    intro styles h log hext hrefs ss' h' lg hok
    unfold applyOverridesLoop at hok
    simp only [Except.ok.injEq, Prod.mk.injEq] at hok
    obtain ⟨h1, h2, h3⟩ := hok
    subst h1
    subst h2
    exact ⟨hext, hrefs⟩
  | cons entry rest ih =>
    intro styles h log hext hrefs ss' h' lg hok
    obtain ⟨style_name, attrs⟩ := entry
    unfold applyOverridesLoop at hok
    cases hlk : styles.byName.lookup style_name with
    | some r =>
      rw [hlk] at hok
      have hrN : origCells.length ≤ r :=
        hrefs (style_name, r) (lookup_mem_pairs styles.byName style_name r hlk)
      have hext' : ∃ tail',
          (heapSet h r (_apply_style_overrides (heapGet h r) attrs).1).cells
            = origCells ++ tail' := by
        simp only [heapSet]
        exact set_extends origCells h.cells r _ hext hrN
      exact ih styles _ _ hext' hrefs ss' h' lg hok
    | none =>
      rw [hlk] at hok
      by_cases hcm : cm = false
      · rw [if_pos hcm] at hok
        exact ih styles h _ hext hrefs ss' h' lg hok
      · rw [if_neg hcm] at hok
        cases hpf : styles.byName.lookup pfn with
        | none =>
          rw [hpf] at hok
          exact absurd hok (by simp)
        | some pr =>
          rw [hpf] at hok
          obtain ⟨tail, htail⟩ := hext
          have hlen : origCells.length ≤ h.cells.length := by
            rw [htail]
            simp
          have hext' : ∃ tail',
              (heapSet (heapAlloc h ⟨style_name, (heapGet h pr).attrs⟩).1
                (heapAlloc h ⟨style_name, (heapGet h pr).attrs⟩).2
                (_apply_style_overrides
                  (heapGet (heapAlloc h ⟨style_name, (heapGet h pr).attrs⟩).1
                    (heapAlloc h ⟨style_name, (heapGet h pr).attrs⟩).2) attrs).1).cells
                = origCells ++ tail' := by
            simp only [heapAlloc, heapSet]
            refine set_extends origCells _ h.cells.length _ ?_ hlen
            exact ⟨tail ++ [PStyle.mk style_name (heapGet h pr).attrs],
              by rw [htail, List.append_assoc]⟩
          have hrefs' : ∀ q ∈ styles.byName
              ++ [(style_name, (heapAlloc h ⟨style_name, (heapGet h pr).attrs⟩).2)],
              origCells.length ≤ q.2 := by
            intro q hq
            rcases List.mem_append.mp hq with hq | hq
            · exact hrefs q hq
            · rw [List.mem_singleton.mp hq]
              exact hlen
          exact ih _ _ _ hext' hrefs' ss' h' lg hok

/-- C7: a successful `make_styles` call leaves every pre-existing heap
cell — in particular every style object reachable from the caller's base
stylesheet — unchanged (the new heap extends the old one), and the
returned stylesheet references only freshly allocated cells, disjoint
from the base's. -/
theorem make_styles_no_mutation (h : Heap) (base : StyleSheet)
    (overrides : List (String × List (String × PyVal)))
    (cm : Bool) (pfn : String)
    (ss' : StyleSheet) (h' : Heap) (lg : List StyleLog)
    (hok : make_styles h base overrides cm pfn = .ok (ss', h', lg)) :
    (∃ tail, h'.cells = h.cells ++ tail) ∧
    (∀ q ∈ ss'.byName, h.cells.length ≤ q.2) := by
  unfold make_styles at hok
  have hclext : ∃ tail, (_clone_stylesheet h base).2.cells = h.cells ++ tail := by
    unfold _clone_stylesheet
    exact cloneAux_extends base.byName h []
  have hclrefs : ∀ q ∈ (_clone_stylesheet h base).1.byName, h.cells.length ≤ q.2 := by
    unfold _clone_stylesheet
    exact cloneAux_refs h.cells.length base.byName h [] le_rfl (by simp)
  by_cases hov : overrides = []
  · rw [if_pos hov] at hok
    simp only [Except.ok.injEq, Prod.mk.injEq] at hok
    obtain ⟨h1, h2, h3⟩ := hok
    subst h1
    subst h2
    exact ⟨hclext, hclrefs⟩
  · rw [if_neg hov] at hok
    exact applyLoop_frame cm pfn h.cells overrides
      (_clone_stylesheet h base).1 (_clone_stylesheet h base).2 []
      hclext hclrefs ss' h' lg hok

/-- A one-style heap and stylesheet for the C7 witness. -/
def heap0 : Heap := ⟨[⟨"Normal", [("fontSize", .int 10)]⟩]⟩

def base0 : StyleSheet := ⟨[("Normal", 0)]⟩

def ov0 : List (String × List (String × PyVal)) := [("Title", [("fontSize", .int 20)])]

/-- Witness for C7: creating a "Title" style with an override on a
concrete base leaves the original heap cell untouched and returns only
fresh references. -/
theorem make_styles_no_mutation_witness :
    (∃ tail, (⟨[⟨"Normal", [("fontSize", .int 10)]⟩,
        ⟨"Normal", [("fontSize", .int 10)]⟩,
        ⟨"Title", [("fontSize", .int 20)]⟩]⟩ : Heap).cells = heap0.cells ++ tail) ∧
    (∀ q ∈ (⟨[("Normal", 1), ("Title", 2)]⟩ : StyleSheet).byName,
      heap0.cells.length ≤ q.2) :=
  make_styles_no_mutation heap0 base0 ov0 true "Normal"
    ⟨[("Normal", 1), ("Title", 2)]⟩
    ⟨[⟨"Normal", [("fontSize", .int 10)]⟩, ⟨"Normal", [("fontSize", .int 10)]⟩,
      ⟨"Title", [("fontSize", .int 20)]⟩]⟩
    [.infoCreated "Title" "Normal",
     .infoSet "Title" "fontSize" (.int 10) (.int 20)]
    (by rfl)

/-! ## Font path validation (src/fontspec.py)

`FontSpec._validate_and_normalize_path` touches the filesystem through
`Path.expanduser().resolve()`, `exists()` and `is_file()`; these become
an explicit record.  `Path.suffix` is embedded after pathlib: the part
of the final component from its last dot, empty when the dot is leading
or trailing or absent.  A raised `ValueError` becomes `Except.error`. -/

structure FS where
  pathExists : String → Bool
  isFile : String → Bool
  resolve : String → String

def _ALLOWED_EXTENSIONS : List String := [".ttf", ".otf", ".ttc"]

/-- Index of the last occurrence of a character. -/
def rfindIdx : List Char → Char → Option Nat
  | [], _ => none
  | x :: xs, c =>
    match rfindIdx xs c with
    | some i => some (i + 1)
    | none => if x = c then some 0 else none

/-- `pathlib.PurePath.suffix`: the extension of the final component,
with a leading, trailing or missing dot giving the empty suffix. -/
def pathSuffix (s : String) : String :=
  let cs := s.toList
  let n := match rfindIdx cs '/' with
    | some i => cs.drop (i + 1)
    | none => cs
  match rfindIdx n '.' with
  | some i => if 0 < i ∧ i + 1 < n.length then String.mk (n.drop i) else ""
  | none => ""

/-- `str.lower()` on the ASCII strings handled here. -/
def strLower (s : String) : String :=
  String.mk (s.toList.map Char.toLower)

/-- Embedding of `FontSpec._validate_and_normalize_path`
(src/fontspec.py, lines 53-85). -/
def _validate_and_normalize_path (fs : FS) (v : String) : Except String String :=
  if fs.pathExists (fs.resolve v) = false then
    .error ("Font file does not exist: " ++ fs.resolve v)
  else if fs.isFile (fs.resolve v) = false then
    .error ("Path is not a file: " ++ fs.resolve v)
  else if strLower (pathSuffix (fs.resolve v)) ∉ _ALLOWED_EXTENSIONS then
    .error ("Unsupported font extension '" ++ strLower (pathSuffix (fs.resolve v))
      ++ "'. Allowed: ['.otf', '.ttc', '.ttf']")
  else
    .ok (fs.resolve v)

/-- C9: validation raises when the resolved path does not exist or is
not a regular file; an existing regular file with a disallowed extension
raises with a message naming that extension; an existing regular
ttf/otf/ttc file validates to exactly the resolved path. -/
theorem fontspec_path_validation (fs : FS) (v : String) :
    (fs.pathExists (fs.resolve v) = false ∨ fs.isFile (fs.resolve v) = false →
      ∃ e, _validate_and_normalize_path fs v = .error e) ∧
    (fs.pathExists (fs.resolve v) = true → fs.isFile (fs.resolve v) = true →
      strLower (pathSuffix (fs.resolve v)) ∉ _ALLOWED_EXTENSIONS →
      ∃ pre post, _validate_and_normalize_path fs v =
        .error (pre ++ strLower (pathSuffix (fs.resolve v)) ++ post)) ∧
    (fs.pathExists (fs.resolve v) = true → fs.isFile (fs.resolve v) = true →
      strLower (pathSuffix (fs.resolve v)) ∈ _ALLOWED_EXTENSIONS →
      _validate_and_normalize_path fs v = .ok (fs.resolve v)) := by
  refine ⟨?_, ?_, ?_⟩
  · intro hbad
    unfold _validate_and_normalize_path
    rcases hbad with hbad | hbad
    · rw [if_pos hbad]
      exact ⟨_, rfl⟩
    · by_cases hex : fs.pathExists (fs.resolve v) = false
      · rw [if_pos hex]
        exact ⟨_, rfl⟩
      · rw [if_neg hex, if_pos hbad]
        exact ⟨_, rfl⟩
  · intro hex hfile hext
    unfold _validate_and_normalize_path
    rw [if_neg (by rw [hex]; simp),
        if_neg (by rw [hfile]; simp),
        if_pos hext]
    exact ⟨"Unsupported font extension '", "'. Allowed: ['.otf', '.ttc', '.ttf']", rfl⟩
  · intro hex hfile hext
    unfold _validate_and_normalize_path
    rw [if_neg (by rw [hex]; simp),
        if_neg (by rw [hfile]; simp),
        if_neg (by simpa using hext)]

/-- A filesystem with every path present as a regular file, resolving
into `/fonts`. -/
def fsAll : FS := ⟨fun _ => true, fun _ => true, fun s => "/fonts/" ++ s⟩

/-- A filesystem with no files. -/
def fsNone : FS := ⟨fun _ => false, fun _ => false, fun s => s⟩

/-- Witness for C9: a missing path errors, a `.woff` file errors naming
".woff", and a valid `.TTF` file validates to its resolved path. -/
theorem fontspec_path_validation_witness :
    (∃ e, _validate_and_normalize_path fsNone "Roboto.ttf" = .error e) ∧
    (∃ pre post, _validate_and_normalize_path fsAll "Inter.woff" =
      .error (pre ++ strLower (pathSuffix (fsAll.resolve "Inter.woff")) ++ post)) ∧
    _validate_and_normalize_path fsAll "Roboto.TTF" = .ok "/fonts/Roboto.TTF" := by
  have h1 := (fontspec_path_validation fsNone "Roboto.ttf").1 (Or.inl rfl)
  have h2 := (fontspec_path_validation fsAll "Inter.woff").2.1 rfl rfl (by decide)
  have h3 := (fontspec_path_validation fsAll "Roboto.TTF").2.2 rfl rfl (by decide)
  exact ⟨h1, h2, h3⟩

end Reports
